import Mathlib

/-!
Verification of the circular-buffer (cbuf) component of this repository.
The repository ships only the interface header `src/trunk/src/common/cbuf.h`;
the implementation file `cbuf.c` is not present, so the buffer is modelled
from the specification (RingStore, spec sections 3 and 4) and the header's
documented contracts, using the logical ever-increasing cursor encoding the
spec itself proposes: `tail ≤ mark ≤ head` measured in total bytes ever
accepted, converted to physical offsets only at the point of copying.
-/

/-- Modelled from the spec: `cbuf.c` is missing from the sources, so the
RingStore state is taken from spec section 3.  `stream` is the list of every
byte ever accepted (so `stream.length = head`); the bytes logically retained
are those between `tail` and `head`, the unread region is `mark..head`, and
the replay region is `tail..mark`.  `minsize`/`maxsize` are the immutable
capacity bounds and `cursize` the current capacity. -/
structure cbuf where
  minsize : Nat
  maxsize : Nat
  cursize : Nat
  tail : Nat
  mark : Nat
  head : Nat
  stream : List Nat
  deriving DecidableEq, Repr

/-- The errno value reported for invalid arguments. -/
def EINVAL : Int := 22

/-- Modelled from the spec: `cbuf_create(minsize, maxsize)` requires
`0 < minsize ≤ maxsize`, allocates `minsize` bytes and starts all cursors
at the same value (empty buffer). -/
def cbuf_create (minsize maxsize : Int) : Option cbuf :=
  if 0 < minsize ∧ minsize ≤ maxsize then
    some { minsize := minsize.toNat, maxsize := maxsize.toNat,
           cursize := minsize.toNat, tail := 0, mark := 0, head := 0,
           stream := [] }
  else
    none

/-- Modelled from the spec: number of unread bytes, `used_len = head − mark`. -/
def cbuf_used (cb : cbuf) : Nat := cb.head - cb.mark

/-- Modelled from the spec: bytes available for replay, `replay_len = mark − tail`. -/
def cbuf.replayLen (cb : cbuf) : Nat := cb.mark - cb.tail

/-- Modelled from the spec: bytes physically occupied, `occupied = head − tail`. -/
def cbuf.occupied (cb : cbuf) : Nat := cb.head - cb.tail

/-- Modelled from the spec: current capacity query `cbuf_size`. -/
def cbuf_size (cb : cbuf) : Nat := cb.cursize

/-- Modelled from the spec: `free = cursize − occupied`, the bytes writable
before eviction would occur if the buffer cannot grow further. -/
def cbuf_free (cb : cbuf) : Nat := cb.cursize - cbuf.occupied cb

/-- Modelled from the spec: `cbuf_is_empty` tests `used_len = 0`. -/
def cbuf_is_empty (cb : cbuf) : Bool := cbuf_used cb == 0

/-- Modelled from the spec: the unread region of the stream (`mark..head`). -/
def cbuf.unread (cb : cbuf) : List Nat := cb.stream.drop cb.mark

/-- Modelled from the spec: capacity after the growth attempt for `n` more
bytes.  If the bytes fit no growth happens; otherwise the buffer grows
(doubling, or to the exact need if larger) capped at `maxsize` — spec
section 4 leaves the exact factor open, any policy that grows toward
`maxsize`, never exceeds it, and is attempted before eviction conforms. -/
def cbuf.growTo (cb : cbuf) (n : Nat) : Nat :=
  if cb.head - cb.tail + n ≤ cb.cursize then cb.cursize
  else min cb.maxsize (max (2 * cb.cursize) (cb.head - cb.tail + n))

/-- Modelled from the spec: the new `tail` after evicting just enough of the
oldest bytes so that the `n` incoming bytes fit in the (possibly grown)
capacity; `tail` never moves backwards and never more than necessary. -/
def cbuf.evictTo (cb : cbuf) (n : Nat) : Nat :=
  max cb.tail (cb.head + n - cbuf.growTo cb n)

/-- Modelled from the spec: the common write-with-eviction path (spec
section 4, `write` steps 1-4).  Appends `bs`, growing first when permitted
and otherwise advancing `tail` (and `mark` in lock-step once the replay
region is exhausted) past exactly as many bytes as needed.  Returns the
number of evicted bytes together with the new state. -/
def cbuf.append (cb : cbuf) (bs : List Nat) : Nat × cbuf :=
  (cbuf.evictTo cb bs.length - cb.tail,
   { cb with
      cursize := cbuf.growTo cb bs.length,
      tail := cbuf.evictTo cb bs.length,
      mark := max cb.mark (cbuf.evictTo cb bs.length),
      head := cb.head + bs.length,
      stream := cb.stream ++ bs })

/-- Modelled from the spec: `cbuf_flush` resets `tail = mark = head`,
dropping both replay and unread data without shrinking `cursize`. -/
def cbuf_flush (cb : cbuf) : cbuf := { cb with tail := cb.head, mark := cb.head }

/-- Modelled from the spec: `cbuf_drop(len)` advances `mark` by
`min(len, used_len)`; invalid argument on `len < 0`. -/
def cbuf_drop (cb : cbuf) (len : Int) : (Except Int Nat) × cbuf :=
  if len < 0 then (.error EINVAL, cb)
  else (.ok (min len.toNat (cbuf_used cb)),
        { cb with mark := cb.mark + min len.toNat (cbuf_used cb) })

/-- Modelled from the spec: `cbuf_peek(dst, len)` copies
`min(len, used_len)` bytes starting at `mark` without consuming them.
The copied bytes stand for the contents written into `dst`. -/
def cbuf_peek (cb : cbuf) (len : Int) : (Except Int (List Nat)) × cbuf :=
  if len < 0 then (.error EINVAL, cb)
  else (.ok ((cbuf.unread cb).take (min len.toNat (cbuf_used cb))), cb)

/-- Modelled from the spec: `cbuf_read(dst, len)` copies like `cbuf_peek`
and then advances `mark` by the copied length. -/
def cbuf_read (cb : cbuf) (len : Int) : (Except Int (List Nat)) × cbuf :=
  if len < 0 then (.error EINVAL, cb)
  else (.ok ((cbuf.unread cb).take (min len.toNat (cbuf_used cb))),
        { cb with mark := cb.mark + min len.toNat (cbuf_used cb) })

/-- Modelled from the spec: `cbuf_replay(dst, len)` copies
`min(len, replay_len)` bytes starting at `tail`, non-destructively. -/
def cbuf_replay (cb : cbuf) (len : Int) : (Except Int (List Nat)) × cbuf :=
  if len < 0 then (.error EINVAL, cb)
  else (.ok ((cb.stream.drop cb.tail).take (min len.toNat (cbuf.replayLen cb))), cb)

/-- Modelled from the spec: `cbuf_write(src, len, &dropped)` appends the
first `len` bytes of `src` through the write-with-eviction path; the whole
request is always satisfied, eviction making room.  Returns
`(written, dropped)` on success, together with the new state;
invalid argument (`len < 0`) returns an error with the state untouched. -/
def cbuf_write (cb : cbuf) (src : List Nat) (len : Int) :
    (Except Int (Nat × Nat)) × cbuf :=
  if len < 0 then (.error EINVAL, cb)
  else (.ok (len.toNat, (cbuf.append cb (src.take len.toNat)).1),
        (cbuf.append cb (src.take len.toNat)).2)

/-- Modelled from the spec: length (newline included) of the first
newline-terminated line of `l`, or `none` when `l` holds no newline.
This is the line scan of `cbuf_gets`/`cbuf_peeks`. -/
def lineLen : List Nat → Option Nat
  | [] => none
  | b :: rest => if b = 10 then some 1 else (lineLen rest).map (fun n => n + 1)

/-- Modelled from the spec: `cbuf_gets(dst, len)` requires `len ≥ 1`.  If the
unread region holds no newline it returns 0, consumes nothing and writes
nothing to `dst`.  Otherwise it copies at most `len − 1` bytes of the line,
appends a terminator (byte 0), returns the full logical line length
(`≥ len` signals truncation) and advances `mark` past the whole line. -/
def cbuf_gets (cb : cbuf) (len : Int) : (Except Int (Nat × List Nat)) × cbuf :=
  if len < 1 then (.error EINVAL, cb)
  else
    match lineLen (cbuf.unread cb) with
    | none => (.ok (0, []), cb)
    | some l =>
        (.ok (l, (cbuf.unread cb).take (min l (len.toNat - 1)) ++ [0]),
         { cb with mark := cb.mark + l })

/-- Modelled from the spec: `cbuf_peeks` behaves like `cbuf_gets` without
consuming the line. -/
def cbuf_peeks (cb : cbuf) (len : Int) : (Except Int (Nat × List Nat)) × cbuf :=
  if len < 1 then (.error EINVAL, cb)
  else
    match lineLen (cbuf.unread cb) with
    | none => (.ok (0, []), cb)
    | some l =>
        (.ok (l, (cbuf.unread cb).take (min l (len.toNat - 1)) ++ [0]), cb)

/-- Modelled from the spec: `cbuf_puts(src)` writes the bytes of a
terminator-delimited string (terminator excluded) through the same path
as `cbuf_write`, forwarding the eviction accounting. -/
def cbuf_puts (cb : cbuf) (src : List Nat) : (Except Int (Nat × Nat)) × cbuf :=
  (.ok ((src.takeWhile (fun b => b ≠ 0)).length,
        (cbuf.append cb (src.takeWhile (fun b => b ≠ 0))).1),
   (cbuf.append cb (src.takeWhile (fun b => b ≠ 0))).2)

/-- Modelled from the spec: effective request length of the descriptor reads
(`peek_to_fd`/`read_to_fd`/`replay_to_fd`): `-1` means all of `avail`,
otherwise `min len avail`. -/
def fdLen (len : Int) (avail : Nat) : Nat :=
  if len = -1 then avail else min len.toNat avail

/-- Modelled from the spec: effective request length of `write_from_fd`:
`-1` means the currently free space, otherwise the requested `len`. -/
def fdWLen (len : Int) (avail : Nat) : Nat :=
  if len = -1 then avail else len.toNat

/-- Modelled from the spec: `cbuf_peek_to_fd(dstfd, len)` offers the unread
bytes to the descriptor collaborator `t` and consumes nothing; a transfer
failure leaves the state untouched and surfaces the collaborator's error. -/
def cbuf_peek_to_fd (cb : cbuf) (t : List Nat → Except Int Nat) (len : Int) :
    (Except Int Nat) × cbuf :=
  if len < -1 then (.error EINVAL, cb)
  else
    match t ((cbuf.unread cb).take (fdLen len (cbuf_used cb))) with
    | .error e => (.error e, cb)
    | .ok k => (.ok (min k (fdLen len (cbuf_used cb))), cb)

/-- Modelled from the spec: `cbuf_read_to_fd(dstfd, len)` is `cbuf_peek_to_fd`
followed by consuming exactly the bytes the collaborator actually took. -/
def cbuf_read_to_fd (cb : cbuf) (t : List Nat → Except Int Nat) (len : Int) :
    (Except Int Nat) × cbuf :=
  if len < -1 then (.error EINVAL, cb)
  else
    match t ((cbuf.unread cb).take (fdLen len (cbuf_used cb))) with
    | .error e => (.error e, cb)
    | .ok k => (.ok (min k (fdLen len (cbuf_used cb))),
                { cb with mark := cb.mark + min k (fdLen len (cbuf_used cb)) })

/-- Modelled from the spec: `cbuf_replay_to_fd(dstfd, len)` offers the replay
region to the collaborator, non-destructively. -/
def cbuf_replay_to_fd (cb : cbuf) (t : List Nat → Except Int Nat) (len : Int) :
    (Except Int Nat) × cbuf :=
  if len < -1 then (.error EINVAL, cb)
  else
    match t ((cb.stream.drop cb.tail).take (fdLen len (cbuf.replayLen cb))) with
    | .error e => (.error e, cb)
    | .ok k => (.ok (min k (fdLen len (cbuf.replayLen cb))), cb)

/-- Modelled from the spec: `cbuf_write_from_fd(srcfd, len)` asks the
collaborator for at most the requested length and appends only the bytes
actually supplied through the write-with-eviction path; an empty transfer
signals end-of-input, a failed transfer leaves the state untouched. -/
def cbuf_write_from_fd (cb : cbuf) (t : Nat → Except Int (List Nat)) (len : Int) :
    (Except Int (Nat × Nat)) × cbuf :=
  if len < -1 then (.error EINVAL, cb)
  else
    match t (fdWLen len (cbuf_free cb)) with
    | .error e => (.error e, cb)
    | .ok bytes =>
        (.ok ((bytes.take (fdWLen len (cbuf_free cb))).length,
              (cbuf.append cb (bytes.take (fdWLen len (cbuf_free cb)))).1),
         (cbuf.append cb (bytes.take (fdWLen len (cbuf_free cb)))).2)

/-- A public mutating operation on a cbuf, for quantifying over operation
sequences.  Descriptor collaborators are carried inside the operation. -/
inductive Op where
  | flush : Op
  | drop : Int → Op
  | peek : Int → Op
  | read : Int → Op
  | replay : Int → Op
  | write : List Nat → Int → Op
  | gets : Int → Op
  | peeks : Int → Op
  | puts : List Nat → Op
  | peekToFd : (List Nat → Except Int Nat) → Int → Op
  | readToFd : (List Nat → Except Int Nat) → Int → Op
  | replayToFd : (List Nat → Except Int Nat) → Int → Op
  | writeFromFd : (Nat → Except Int (List Nat)) → Int → Op

/-- The state reached after one public operation. -/
def cbufStep (cb : cbuf) : Op → cbuf
  | .flush => cbuf_flush cb
  | .drop len => (cbuf_drop cb len).2
  | .peek len => (cbuf_peek cb len).2
  | .read len => (cbuf_read cb len).2
  | .replay len => (cbuf_replay cb len).2
  | .write src len => (cbuf_write cb src len).2
  | .gets len => (cbuf_gets cb len).2
  | .peeks len => (cbuf_peeks cb len).2
  | .puts src => (cbuf_puts cb src).2
  | .peekToFd t len => (cbuf_peek_to_fd cb t len).2
  | .readToFd t len => (cbuf_read_to_fd cb t len).2
  | .replayToFd t len => (cbuf_replay_to_fd cb t len).2
  | .writeFromFd t len => (cbuf_write_from_fd cb t len).2

/-- The state reached after a finite sequence of public operations. -/
def runOps (cb : cbuf) (ops : List Op) : cbuf := ops.foldl cbufStep cb

/-- The RingStore invariant of spec section 3: ordered cursors, bounded
occupancy and capacity, and a stream recording exactly `head` bytes. -/
def cbufInv (cb : cbuf) : Prop :=
  cb.tail ≤ cb.mark ∧ cb.mark ≤ cb.head ∧
  cb.head - cb.tail ≤ cb.cursize ∧
  cb.minsize ≤ cb.cursize ∧ cb.cursize ≤ cb.maxsize ∧
  cb.stream.length = cb.head

instance instDecidableCbufInv (cb : cbuf) : Decidable (cbufInv cb) := by
  unfold cbufInv
  infer_instance

/-- A cbuf built by `cbuf_create`, with a harmless fallback for invalid
arguments, used to build concrete states in witnesses. -/
def mkCb (ms mx : Int) : cbuf :=
  match cbuf_create ms mx with
  | some c => c
  | none => { minsize := 1, maxsize := 1, cursize := 1,
              tail := 0, mark := 0, head := 0, stream := [] }

instance exceptDecEq {α β : Type} [DecidableEq α] [DecidableEq β] :
    DecidableEq (Except α β) := fun a b =>
  match a, b with
  | .error x, .error y =>
      if h : x = y then isTrue (by rw [h])
      else isFalse (fun hc => by cases hc; exact h rfl)
  | .ok x, .ok y =>
      if h : x = y then isTrue (by rw [h])
      else isFalse (fun hc => by cases hc; exact h rfl)
  | .error _, .ok _ => isFalse (fun hc => by cases hc)
  | .ok _, .error _ => isFalse (fun hc => by cases hc)

/-- A sample sequence of public operations exercising every kind of call. -/
def demoOps : List Op :=
  [Op.write [1, 2, 3, 10, 5] 5, Op.drop 1, Op.gets 3, Op.peek 2, Op.read 1,
   Op.replay 4, Op.peeks 2, Op.puts [7, 8, 0],
   Op.peekToFd (fun bs => Except.ok bs.length) (-1),
   Op.readToFd (fun _ => Except.ok 1) 2,
   Op.replayToFd (fun _ => Except.error 11) (-1),
   Op.writeFromFd (fun n => Except.ok (List.replicate (min n 2) 9)) 6,
   Op.flush]

/-- A cbuf whose unread region is the byte string abcdefg newline. -/
def getsDemo : cbuf :=
  (cbuf_write (mkCb 16 16) [97, 98, 99, 100, 101, 102, 103, 10] 8).2

/-- A cbuf whose unread region is the byte string abc (no newline). -/
def noNlDemo : cbuf := (cbuf_write (mkCb 8 8) [97, 98, 99] 3).2

/-- A sequence of plain `cbuf_write` calls, each writing one whole list. -/
def writeList (cb : cbuf) (bs : List (List Nat)) : cbuf :=
  bs.foldl (fun c b => (cbuf_write c b (b.length : Int)).2) cb

/-- A cbuf holding one pending unread byte. -/
def usedDemo : cbuf := (cbuf_write (mkCb 8 8) [1] 1).2

/-- The state after writing the two bytes 5, 6 into a fresh cbuf. -/
def rtDemo : cbuf := (cbuf_write (mkCb 4 8) [5, 6] ((([5, 6] : List Nat)).length : Int)).2

/-- A full non-growing cbuf: four unread bytes in a 4-byte buffer. -/
def fullDemo : cbuf := (cbuf_write (mkCb 4 4) [1, 2, 3, 4] 4).2

theorem lineLen_pos_le {l : List Nat} {n : Nat} (h : lineLen l = some n) :
    0 < n ∧ n ≤ l.length := by
  induction l generalizing n with
  | nil => simp [lineLen] at h
  | cons b rest ih =>
    simp only [lineLen] at h
    split at h
    · cases h
      simp
    · cases hr : lineLen rest with
      | none => rw [hr] at h; simp at h
      | some m =>
        rw [hr] at h
        simp only [Option.map_some'] at h
        cases h
        have := ih hr
        constructor
        · omega
        · simp only [List.length_cons]; omega

theorem lineLen_eq_none {l : List Nat} (h : (10 : Nat) ∉ l) : lineLen l = none := by
  induction l with
  | nil => rfl
  | cons b rest ih =>
    simp only [List.mem_cons, not_or] at h
    simp only [lineLen, if_neg (by omega : ¬ b = 10), ih h.2, Option.map_none']

theorem unread_length {cb : cbuf} (h : cb.stream.length = cb.head) :
    (cbuf.unread cb).length = cb.head - cb.mark := by
  simp [cbuf.unread, List.length_drop, h]

theorem cbuf_peek_state (cb : cbuf) (len : Int) : (cbuf_peek cb len).2 = cb := by
  unfold cbuf_peek
  split <;> rfl

theorem cbuf_peeks_state (cb : cbuf) (len : Int) : (cbuf_peeks cb len).2 = cb := by
  unfold cbuf_peeks
  split
  · rfl
  · split <;> rfl

theorem cbuf_replay_state (cb : cbuf) (len : Int) : (cbuf_replay cb len).2 = cb := by
  unfold cbuf_replay
  split <;> rfl

theorem cbuf_peek_to_fd_state (cb : cbuf) (t : List Nat → Except Int Nat) (len : Int) :
    (cbuf_peek_to_fd cb t len).2 = cb := by
  unfold cbuf_peek_to_fd
  split
  · rfl
  · split <;> rfl

theorem cbuf_replay_to_fd_state (cb : cbuf) (t : List Nat → Except Int Nat) (len : Int) :
    (cbuf_replay_to_fd cb t len).2 = cb := by
  unfold cbuf_replay_to_fd
  split
  · rfl
  · split <;> rfl

theorem inv_append (cb : cbuf) (bs : List Nat) (h : cbufInv cb) :
    cbufInv (cbuf.append cb bs).2 := by
  obtain ⟨h1, h2, h3, h4, h5, h6⟩ := h
  have hg1 : cb.cursize ≤ cbuf.growTo cb bs.length := by
    unfold cbuf.growTo; split <;> omega
  have hg2 : cbuf.growTo cb bs.length ≤ cb.maxsize := by
    unfold cbuf.growTo; split <;> omega
  unfold cbufInv cbuf.append cbuf.evictTo
  simp only [List.length_append]
  refine ⟨?_, ?_, ?_, ?_, ?_, ?_⟩ <;> omega

theorem inv_flush (cb : cbuf) (h : cbufInv cb) : cbufInv (cbuf_flush cb) := by
  obtain ⟨h1, h2, h3, h4, h5, h6⟩ := h
  unfold cbufInv cbuf_flush
  refine ⟨?_, ?_, ?_, ?_, ?_, ?_⟩ <;> simp <;> omega

theorem inv_mark_advance (cb : cbuf) (n : Nat) (hn : n ≤ cbuf_used cb)
    (h : cbufInv cb) : cbufInv { cb with mark := cb.mark + n } := by
  obtain ⟨h1, h2, h3, h4, h5, h6⟩ := h
  unfold cbuf_used at hn
  unfold cbufInv
  dsimp only
  exact ⟨by omega, by omega, h3, h4, h5, h6⟩

theorem inv_step (cb : cbuf) (op : Op) (h : cbufInv cb) : cbufInv (cbufStep cb op) := by
  cases op with
  | flush => exact inv_flush cb h
  | drop len =>
    show cbufInv (cbuf_drop cb len).2
    unfold cbuf_drop
    split
    · exact h
    · exact inv_mark_advance cb _ (min_le_right _ _) h
  | peek len => rw [cbufStep, cbuf_peek_state]; exact h
  | read len =>
    show cbufInv (cbuf_read cb len).2
    unfold cbuf_read
    split
    · exact h
    · exact inv_mark_advance cb _ (min_le_right _ _) h
  | replay len => rw [cbufStep, cbuf_replay_state]; exact h
  | write src len =>
    show cbufInv (cbuf_write cb src len).2
    unfold cbuf_write
    split
    · exact h
    · exact inv_append cb _ h
  | gets len =>
    show cbufInv (cbuf_gets cb len).2
    unfold cbuf_gets
    split
    · exact h
    · split
      · exact h
      · rename_i l heq
        have hpl := lineLen_pos_le heq
        have hul := unread_length h.2.2.2.2.2
        exact inv_mark_advance cb l (by unfold cbuf_used; omega) h
  | peeks len => rw [cbufStep, cbuf_peeks_state]; exact h
  | puts src =>
    show cbufInv (cbuf_puts cb src).2
    exact inv_append cb _ h
  | peekToFd t len => rw [cbufStep, cbuf_peek_to_fd_state]; exact h
  | readToFd t len =>
    show cbufInv (cbuf_read_to_fd cb t len).2
    unfold cbuf_read_to_fd
    split
    · exact h
    · split
      · exact h
      · rename_i k heq
        refine inv_mark_advance cb _ ?_ h
        have : fdLen len (cbuf_used cb) ≤ cbuf_used cb := by
          unfold fdLen; split <;> omega
        omega
  | replayToFd t len => rw [cbufStep, cbuf_replay_to_fd_state]; exact h
  | writeFromFd t len =>
    show cbufInv (cbuf_write_from_fd cb t len).2
    unfold cbuf_write_from_fd
    split
    · exact h
    · split
      · exact h
      · exact inv_append cb _ h

theorem runOps_inv (ops : List Op) : ∀ cb : cbuf, cbufInv cb → cbufInv (runOps cb ops) := by
  induction ops with
  | nil => intro cb h; exact h
  | cons op rest ih =>
    intro cb h
    show cbufInv (runOps (cbufStep cb op) rest)
    exact ih _ (inv_step cb op h)

theorem cbuf_create_inv (ms mx : Int) (cb : cbuf) (h : cbuf_create ms mx = some cb) :
    cbufInv cb ∧ 0 < cb.minsize := by
  unfold cbuf_create at h
  split at h
  · rename_i hc
    cases h
    refine ⟨⟨le_refl _, le_refl _, by simp, le_refl _, by simp; omega, rfl⟩, by simp; omega⟩
  · exact absurd h (by simp)

/-- C1: for every cbuf created with `0 < minsize ≤ maxsize` and every finite
sequence of public operations applied to it, after every operation the
cursors satisfy `tail ≤ mark ≤ head` and the occupancy satisfies
`occupied = head − tail ≤ cursize ≤ maxsize`, with `cursize ≥ minsize`. -/
theorem c1_invariant (ms mx : Int) (cb₀ : cbuf) (hc : cbuf_create ms mx = some cb₀)
    (ops : List Op) :
    (runOps cb₀ ops).tail ≤ (runOps cb₀ ops).mark ∧
    (runOps cb₀ ops).mark ≤ (runOps cb₀ ops).head ∧
    (runOps cb₀ ops).head - (runOps cb₀ ops).tail ≤ (runOps cb₀ ops).cursize ∧
    (runOps cb₀ ops).cursize ≤ (runOps cb₀ ops).maxsize ∧
    (runOps cb₀ ops).minsize ≤ (runOps cb₀ ops).cursize := by
  have h := (cbuf_create_inv ms mx cb₀ hc).1
  have h2 := runOps_inv ops cb₀ h
  exact ⟨h2.1, h2.2.1, h2.2.2.1, h2.2.2.2.2.1, h2.2.2.2.1⟩

theorem c1_invariant_witness :
    cbuf_create 4 8 = some (mkCb 4 8) ∧
    ((runOps (mkCb 4 8) demoOps).tail ≤ (runOps (mkCb 4 8) demoOps).mark ∧
     (runOps (mkCb 4 8) demoOps).mark ≤ (runOps (mkCb 4 8) demoOps).head ∧
     (runOps (mkCb 4 8) demoOps).head - (runOps (mkCb 4 8) demoOps).tail ≤
        (runOps (mkCb 4 8) demoOps).cursize ∧
     (runOps (mkCb 4 8) demoOps).cursize ≤ (runOps (mkCb 4 8) demoOps).maxsize ∧
     (runOps (mkCb 4 8) demoOps).minsize ≤ (runOps (mkCb 4 8) demoOps).cursize) :=
  ⟨by decide, c1_invariant 4 8 (mkCb 4 8) (by decide) demoOps⟩

/-- C2: for every cbuf and every source buffer holding at least `len ≥ 0`
bytes, `cbuf_write` writes the entire request — it returns exactly `len`,
appends exactly the first `len` source bytes, and reports as dropped the
total bytes evicted (the advance of `tail`); on invalid argument
(`len < 0`) it returns an error code with no side effects on the state. -/
theorem c2_write_total (cb : cbuf) (src : List Nat) (len : Int) :
    (0 ≤ len → len.toNat ≤ src.length → ∃ cb',
        cbuf_write cb src len = (.ok (len.toNat, cb'.tail - cb.tail), cb') ∧
        cb'.stream = cb.stream ++ src.take len.toNat ∧
        cb'.head = cb.head + len.toNat) ∧
    (len < 0 → cbuf_write cb src len = (.error EINVAL, cb)) := by
  constructor
  · intro h0 hsrc
    refine ⟨(cbuf.append cb (src.take len.toNat)).2, ?_, ?_, ?_⟩
    · unfold cbuf_write
      rw [if_neg (by omega)]
      rfl
    · simp [cbuf.append]
    · have hlt : (src.take len.toNat).length = len.toNat := by
        simp only [List.length_take]
        omega
      show (cbuf.append cb (src.take len.toNat)).2.head = cb.head + len.toNat
      simp [cbuf.append, hlt]
  · intro hneg
    unfold cbuf_write
    rw [if_pos hneg]

theorem c2_write_total_witness :
    ∃ cb', cbuf_write (mkCb 4 8) [1, 2] 2 =
        (.ok ((2 : Int).toNat, cb'.tail - (mkCb 4 8).tail), cb') ∧
      cb'.stream = (mkCb 4 8).stream ++ [1, 2].take (2 : Int).toNat ∧
      cb'.head = (mkCb 4 8).head + (2 : Int).toNat :=
  (c2_write_total (mkCb 4 8) [1, 2] 2).1 (by decide) (by decide)

/-- C10: for every cbuf and every `len`, `cbuf_peek` and `cbuf_peeks` leave
the entire buffer state unchanged (all cursors, capacity and stored bytes),
so two consecutive calls with the same arguments return identical results. -/
theorem c10_peek_frame (cb : cbuf) (len : Int) :
    (cbuf_peek cb len).2 = cb ∧ (cbuf_peeks cb len).2 = cb ∧
    cbuf_peek (cbuf_peek cb len).2 len = cbuf_peek cb len ∧
    cbuf_peeks (cbuf_peeks cb len).2 len = cbuf_peeks cb len := by
  refine ⟨cbuf_peek_state cb len, cbuf_peeks_state cb len, ?_, ?_⟩
  · rw [cbuf_peek_state]
  · rw [cbuf_peeks_state]

/-- C4: for every cbuf whose unread region holds a newline, if the line
including its newline is longer than `len − 1` bytes then `cbuf_gets`
copies the first `len − 1` bytes into the destination, appends a
terminator, returns the full line length (`≥ len`, the truncation signal)
and advances `mark` past the entire logical line, so the discarded
remainder is not returned by a subsequent call. -/
theorem c4_gets_truncation (cb : cbuf) (len : Int) (l : Nat)
    (hline : lineLen (cbuf.unread cb) = some l)
    (hlen : 1 ≤ len) (htrunc : len.toNat - 1 < l) :
    (cbuf_gets cb len).1 = .ok (l, (cbuf.unread cb).take (len.toNat - 1) ++ [0]) ∧
    len ≤ (l : Int) ∧
    (cbuf_gets cb len).2.mark = cb.mark + l ∧
    cbuf.unread (cbuf_gets cb len).2 = (cbuf.unread cb).drop l := by
  have hmin : min l (len.toNat - 1) = len.toNat - 1 := by omega
  unfold cbuf_gets
  rw [if_neg (by omega), hline]
  dsimp only
  refine ⟨by rw [hmin], by omega, rfl, ?_⟩
  unfold cbuf.unread
  dsimp only
  rw [List.drop_drop]

theorem c4_gets_truncation_witness :
    (cbuf_gets getsDemo 5).1 =
        .ok (8, (cbuf.unread getsDemo).take ((5 : Int).toNat - 1) ++ [0]) ∧
    (5 : Int) ≤ ((8 : Nat) : Int) ∧
    (cbuf_gets getsDemo 5).2.mark = getsDemo.mark + 8 ∧
    cbuf.unread (cbuf_gets getsDemo 5).2 = (cbuf.unread getsDemo).drop 8 :=
  c4_gets_truncation getsDemo 5 8 (by decide) (by decide) (by decide)

/-- C5: for every cbuf whose currently unread bytes contain no newline,
`cbuf_gets` returns 0, consumes nothing (the whole state is unchanged,
so `mark` is unchanged and all unread bytes remain unread) and writes
nothing to the destination. -/
theorem c5_gets_no_newline (cb : cbuf) (len : Int) (hlen : 1 ≤ len)
    (hnl : (10 : Nat) ∉ cbuf.unread cb) :
    cbuf_gets cb len = (.ok (0, []), cb) := by
  unfold cbuf_gets
  rw [if_neg (by omega), lineLen_eq_none hnl]

theorem c5_gets_no_newline_witness :
    cbuf_gets noNlDemo 5 = (.ok (0, []), noNlDemo) :=
  c5_gets_no_newline noNlDemo 5 (by decide) (by decide)

theorem writeList_cons (cb : cbuf) (b : List Nat) (rest : List (List Nat)) :
    writeList cb (b :: rest) = writeList (cbuf_write cb b (b.length : Int)).2 rest := rfl

theorem write_nat_reduce (cb : cbuf) (b : List Nat) :
    (cbuf_write cb b (b.length : Int)).2 = (cbuf.append cb b).2 := by
  unfold cbuf_write
  rw [if_neg (by omega)]
  dsimp only
  rw [Int.toNat_natCast, List.take_length]

theorem append_fits_fields (cb : cbuf) (b : List Nat)
    (ht : cb.tail = 0) (hm : cb.mark = 0) (hfit : cb.head + b.length ≤ cb.cursize) :
    (cbuf.append cb b).2.minsize = cb.minsize ∧
    (cbuf.append cb b).2.maxsize = cb.maxsize ∧
    (cbuf.append cb b).2.cursize = cb.cursize ∧
    (cbuf.append cb b).2.tail = 0 ∧
    (cbuf.append cb b).2.mark = 0 ∧
    (cbuf.append cb b).2.head = cb.head + b.length := by
  have hg : cbuf.growTo cb b.length = cb.cursize := by
    unfold cbuf.growTo
    rw [if_pos (by omega)]
  have he : cbuf.evictTo cb b.length = 0 := by
    unfold cbuf.evictTo
    rw [hg]
    omega
  unfold cbuf.append
  dsimp only
  rw [he, hm]
  refine ⟨rfl, rfl, hg, rfl, by omega, rfl⟩

theorem writeList_state (bs : List (List Nat)) : ∀ cb : cbuf,
    cb.tail = 0 → cb.mark = 0 →
    cb.head + (bs.map List.length).sum ≤ cb.cursize →
    (writeList cb bs).minsize = cb.minsize ∧
    (writeList cb bs).maxsize = cb.maxsize ∧
    (writeList cb bs).cursize = cb.cursize ∧
    (writeList cb bs).tail = 0 ∧
    (writeList cb bs).mark = 0 ∧
    (writeList cb bs).head = cb.head + (bs.map List.length).sum := by
  induction bs with
  | nil =>
    intro cb h1 h2 h3
    exact ⟨rfl, rfl, rfl, h1, h2, by simp [writeList]⟩
  | cons b rest ih =>
    intro cb h1 h2 h3
    rw [writeList_cons, write_nat_reduce]
    have hsum : (List.map List.length (b :: rest)).sum =
        b.length + (List.map List.length rest).sum := by simp
    rw [hsum] at h3
    obtain ⟨f1, f2, f3, f4, f5, f6⟩ := append_fits_fields cb b h1 h2 (by omega)
    obtain ⟨g1, g2, g3, g4, g5, g6⟩ :=
      ih (cbuf.append cb b).2 f4 f5 (by rw [f6, f3]; omega)
    refine ⟨g1.trans f1, g2.trans f2, g3.trans f3, g4, g5, ?_⟩
    rw [g6, f6, hsum]
    omega

/-- C3: with `minsize = maxsize = K`, after writes totalling at most `K`
unread bytes (no reads or drops in between), a final write that pushes the
total past `K` reports `dropped = written − K` and leaves
`cbuf_used() = K`. -/
theorem c3_no_growth_eviction (K : Int) (cb₀ : cbuf) (bs : List (List Nat)) (b : List Nat)
    (hc : cbuf_create K K = some cb₀)
    (hP : (bs.map List.length).sum ≤ K.toNat)
    (hover : K.toNat < (bs.map List.length).sum + b.length) :
    (cbuf_write (writeList cb₀ bs) b (b.length : Int)).1 =
      .ok (b.length, (bs.map List.length).sum + b.length - K.toNat) ∧
    cbuf_used (cbuf_write (writeList cb₀ bs) b (b.length : Int)).2 = K.toNat := by
  have hcb : cb₀.maxsize = K.toNat ∧ cb₀.cursize = K.toNat ∧ cb₀.tail = 0 ∧
      cb₀.mark = 0 ∧ cb₀.head = 0 := by
    unfold cbuf_create at hc
    split at hc
    · cases hc
      exact ⟨rfl, rfl, rfl, rfl, rfl⟩
    · exact absurd hc (by simp)
  obtain ⟨m2, m3, m4, m5, m6⟩ := hcb
  obtain ⟨w1, w2, w3, w4, w5, w6⟩ := writeList_state bs cb₀ m4 m5 (by omega)
  set cb := writeList cb₀ bs with hcbdef
  have hmax : cb.maxsize = K.toNat := by rw [w2, m2]
  have hcur : cb.cursize = K.toNat := by rw [w3, m3]
  have hhead : cb.head = (bs.map List.length).sum := by omega
  have hG : cbuf.growTo cb b.length = K.toNat := by
    unfold cbuf.growTo
    split
    · exact hcur
    · omega
  have hE : cbuf.evictTo cb b.length = (bs.map List.length).sum + b.length - K.toNat := by
    unfold cbuf.evictTo
    rw [hG]
    omega
  constructor
  · unfold cbuf_write
    rw [if_neg (by omega)]
    dsimp only
    rw [Int.toNat_natCast, List.take_length]
    unfold cbuf.append
    dsimp only
    rw [hE, w4]
    have hz : (bs.map List.length).sum + b.length - K.toNat - 0 =
        (bs.map List.length).sum + b.length - K.toNat := by omega
    rw [hz]
  · unfold cbuf_write
    rw [if_neg (by omega)]
    dsimp only
    rw [Int.toNat_natCast, List.take_length]
    unfold cbuf_used cbuf.append
    dsimp only
    rw [hE, w5, hhead]
    omega

theorem c3_no_growth_eviction_witness :
    (cbuf_write (writeList (mkCb 3 3) [[1, 2]]) [4, 5] ((([4, 5] : List Nat)).length : Int)).1 =
      .ok ((([4, 5] : List Nat)).length,
           (([[1, 2]] : List (List Nat)).map List.length).sum +
             (([4, 5] : List Nat)).length - (3 : Int).toNat) ∧
    cbuf_used (cbuf_write (writeList (mkCb 3 3) [[1, 2]]) [4, 5]
        ((([4, 5] : List Nat)).length : Int)).2 = (3 : Int).toNat :=
  c3_no_growth_eviction 3 (mkCb 3 3) [[1, 2]] [4, 5] (by decide) (by decide) (by decide)

/-- C6 counterexample: on a cbuf that already holds an unread byte, writing
the byte sequence 2 and then reading one byte returns the older byte 1,
not the just-written sequence, so the round-trip claim fails for an
arbitrary cbuf. -/
theorem c6_counterexample :
    ¬ (cbuf_read (cbuf_write usedDemo [2] 1).2 1).1 = .ok [2] := by decide

/-- C6 (amended): for every cbuf with no pending unread bytes, writing `B`
and then reading `len(B)` bytes, when the write evicts nothing, copies
exactly the bytes of `B` in their original order. -/
theorem c6_roundtrip (cb cb' : cbuf) (B : List Nat)
    (hinv : cbufInv cb) (hused : cbuf_used cb = 0)
    (hw : cbuf_write cb B (B.length : Int) = (.ok (B.length, 0), cb')) :
    (cbuf_read cb' (B.length : Int)).1 = .ok B := by
  obtain ⟨h1, h2, h3, h4, h5, h6⟩ := hinv
  have hmark : cb.mark = cb.head := by
    unfold cbuf_used at hused
    omega
  unfold cbuf_write at hw
  rw [if_neg (by omega), Int.toNat_natCast, List.take_length] at hw
  have hw2 : (cbuf.append cb B).2 = cb' := congrArg Prod.snd hw
  have hd : (cbuf.append cb B).1 = 0 := by
    have hw1 := congrArg Prod.fst hw
    simp only [Except.ok.injEq, Prod.mk.injEq] at hw1
    exact hw1.2
  subst hw2
  have hE : cbuf.evictTo cb B.length = cb.tail := by
    unfold cbuf.append at hd
    dsimp only at hd
    unfold cbuf.evictTo at hd ⊢
    omega
  unfold cbuf_read cbuf.append
  rw [if_neg (by omega)]
  dsimp only
  rw [Int.toNat_natCast]
  unfold cbuf_used cbuf.unread
  dsimp only
  rw [hE]
  have hmm : max cb.mark cb.tail = cb.mark := by omega
  rw [hmm, hmark, ← h6, List.drop_left]
  have hmin : min B.length (cb.stream.length + B.length - cb.stream.length) = B.length := by
    omega
  rw [hmin, List.take_length]

theorem c6_roundtrip_witness :
    (cbuf_read rtDemo ((([5, 6] : List Nat)).length : Int)).1 = .ok [5, 6] :=
  c6_roundtrip (mkCb 4 8) rtDemo [5, 6] (by decide) (by decide) (by decide)

/-- C7: for every descriptor-mediated operation, when the underlying
transfer fails the cursors are left exactly as if zero bytes had been
transferred (the state is returned unchanged) and the collaborator's
error is surfaced to the caller unchanged. -/
theorem c7_fd_failure (cb : cbuf) (len : Int) (e : Int)
    (tOut : List Nat → Except Int Nat) (tIn : Nat → Except Int (List Nat))
    (hOut : ∀ bs, tOut bs = .error e) (hIn : ∀ n, tIn n = .error e)
    (hlen : -1 ≤ len) :
    cbuf_peek_to_fd cb tOut len = (.error e, cb) ∧
    cbuf_read_to_fd cb tOut len = (.error e, cb) ∧
    cbuf_replay_to_fd cb tOut len = (.error e, cb) ∧
    cbuf_write_from_fd cb tIn len = (.error e, cb) := by
  refine ⟨?_, ?_, ?_, ?_⟩
  · unfold cbuf_peek_to_fd
    rw [if_neg (by omega), hOut]
  · unfold cbuf_read_to_fd
    rw [if_neg (by omega), hOut]
  · unfold cbuf_replay_to_fd
    rw [if_neg (by omega), hOut]
  · unfold cbuf_write_from_fd
    rw [if_neg (by omega), hIn]

theorem c7_fd_failure_witness :
    cbuf_peek_to_fd (mkCb 4 8) (fun _ => Except.error 35) 0 = (.error 35, mkCb 4 8) ∧
    cbuf_read_to_fd (mkCb 4 8) (fun _ => Except.error 35) 0 = (.error 35, mkCb 4 8) ∧
    cbuf_replay_to_fd (mkCb 4 8) (fun _ => Except.error 35) 0 = (.error 35, mkCb 4 8) ∧
    cbuf_write_from_fd (mkCb 4 8) (fun _ => Except.error 35) 0 = (.error 35, mkCb 4 8) :=
  c7_fd_failure (mkCb 4 8) 0 35 (fun _ => Except.error 35) (fun _ => Except.error 35)
    (fun _ => rfl) (fun _ => rfl) (by decide)

/-- C8 counterexample: on a full non-growing cbuf, a short transfer of 3 of
10 requested bytes returns 3 but `cbuf_used()` does not increase by 3 —
the eviction needed for the 3 new bytes discards 3 unread bytes, so
`used()` stays at 4 instead of becoming 7. -/
theorem c8_counterexample :
    (cbuf_write_from_fd fullDemo (fun _ => Except.ok [9, 9, 9]) 10).1 = .ok (3, 3) ∧
    ¬ cbuf_used (cbuf_write_from_fd fullDemo (fun _ => Except.ok [9, 9, 9]) 10).2 =
        cbuf_used fullDemo + 3 := by decide

/-- C8 (amended): when `cbuf_write_from_fd` requests `N = len` bytes and the
descriptor supplies only `k < N` bytes, only those `k` bytes are appended;
the return value is `k` (the actual count, not the request) together with
the eviction accounting for those `k` bytes alone; `cbuf_used()` increases
by exactly `k` less the unread bytes evicted to make room (exactly `k`
whenever nothing unread is evicted); and a transfer of zero bytes —
end-of-input — returns 0 and leaves the cursors unchanged. -/
theorem c8_short_transfer (cb : cbuf) (t : Nat → Except Int (List Nat)) (len : Int)
    (bytes : List Nat) (k : Nat)
    (hinv : cbufInv cb) (hlen : 0 ≤ len)
    (ht : t len.toNat = .ok bytes) (hk : bytes.length = k) (hshort : k < len.toNat) :
    (cbuf_write_from_fd cb t len).1 =
      .ok (k, (cbuf_write_from_fd cb t len).2.tail - cb.tail) ∧
    (cbuf_write_from_fd cb t len).2.head = cb.head + k ∧
    (cbuf_write_from_fd cb t len).2.stream = cb.stream ++ bytes ∧
    cbuf_used (cbuf_write_from_fd cb t len).2 +
        ((cbuf_write_from_fd cb t len).2.mark - cb.mark) = cbuf_used cb + k ∧
    (k = 0 → (cbuf_write_from_fd cb t len).2.tail = cb.tail ∧
             (cbuf_write_from_fd cb t len).2.mark = cb.mark) := by
  obtain ⟨h1, h2, h3, h4, h5, h6⟩ := hinv
  subst hk
  have hW : fdWLen len (cbuf_free cb) = len.toNat := by
    unfold fdWLen
    rw [if_neg (by omega)]
  have htake : bytes.take len.toNat = bytes := List.take_of_length_le (by omega)
  unfold cbuf_write_from_fd
  rw [if_neg (by omega), hW, ht]
  dsimp only
  rw [htake]
  unfold cbuf_used cbuf.append cbuf.evictTo
  dsimp only
  refine ⟨rfl, rfl, rfl, by omega, ?_⟩
  intro hk0
  have hb : bytes = [] := List.length_eq_zero.mp hk0
  subst hb
  simp only [List.length_nil]
  have hg0 : cbuf.growTo cb 0 = cb.cursize := by
    unfold cbuf.growTo
    rw [if_pos (by omega)]
  rw [hg0]
  constructor <;> omega

theorem c8_short_transfer_witness :
    (cbuf_write_from_fd (mkCb 8 8) (fun _ => Except.ok [9, 9, 9]) 10).1 =
      .ok (3, (cbuf_write_from_fd (mkCb 8 8) (fun _ => Except.ok [9, 9, 9]) 10).2.tail -
              (mkCb 8 8).tail) ∧
    (cbuf_write_from_fd (mkCb 8 8) (fun _ => Except.ok [9, 9, 9]) 10).2.head =
      (mkCb 8 8).head + 3 ∧
    (cbuf_write_from_fd (mkCb 8 8) (fun _ => Except.ok [9, 9, 9]) 10).2.stream =
      (mkCb 8 8).stream ++ [9, 9, 9] ∧
    cbuf_used (cbuf_write_from_fd (mkCb 8 8) (fun _ => Except.ok [9, 9, 9]) 10).2 +
        ((cbuf_write_from_fd (mkCb 8 8) (fun _ => Except.ok [9, 9, 9]) 10).2.mark -
          (mkCb 8 8).mark) = cbuf_used (mkCb 8 8) + 3 ∧
    (3 = 0 → (cbuf_write_from_fd (mkCb 8 8) (fun _ => Except.ok [9, 9, 9]) 10).2.tail =
          (mkCb 8 8).tail ∧
        (cbuf_write_from_fd (mkCb 8 8) (fun _ => Except.ok [9, 9, 9]) 10).2.mark =
          (mkCb 8 8).mark) :=
  c8_short_transfer (mkCb 8 8) (fun _ => Except.ok [9, 9, 9]) 10 [9, 9, 9] 3
    (by decide) (by decide) rfl (by decide) (by decide)

/-- C9: for every descriptor-mediated operation, a length of `-1` requests
exactly what is currently available for that operation — `cbuf_used()` for
peek/read, the replayable byte count for replay, `cbuf_free()` for
write-from-fd — and any other negative length is an invalid argument. -/
theorem c9_len_neg_one (cb : cbuf) (tOut : List Nat → Except Int Nat)
    (tIn : Nat → Except Int (List Nat)) (len : Int) (hlen : len < -1) :
    cbuf_peek_to_fd cb tOut (-1) = cbuf_peek_to_fd cb tOut ((cbuf_used cb : Nat) : Int) ∧
    cbuf_read_to_fd cb tOut (-1) = cbuf_read_to_fd cb tOut ((cbuf_used cb : Nat) : Int) ∧
    cbuf_replay_to_fd cb tOut (-1) =
      cbuf_replay_to_fd cb tOut ((cbuf.replayLen cb : Nat) : Int) ∧
    cbuf_write_from_fd cb tIn (-1) = cbuf_write_from_fd cb tIn ((cbuf_free cb : Nat) : Int) ∧
    cbuf_peek_to_fd cb tOut len = (.error EINVAL, cb) ∧
    cbuf_read_to_fd cb tOut len = (.error EINVAL, cb) ∧
    cbuf_replay_to_fd cb tOut len = (.error EINVAL, cb) ∧
    cbuf_write_from_fd cb tIn len = (.error EINVAL, cb) := by
  have hfd : ∀ a : Nat, fdLen (-1) a = fdLen ((a : Nat) : Int) a := by
    intro a
    unfold fdLen
    rw [if_pos rfl, if_neg (by omega), Int.toNat_natCast]
    omega
  have hfdW : ∀ a : Nat, fdWLen (-1) a = fdWLen ((a : Nat) : Int) a := by
    intro a
    unfold fdWLen
    rw [if_pos rfl, if_neg (by omega), Int.toNat_natCast]
  refine ⟨?_, ?_, ?_, ?_, ?_, ?_, ?_, ?_⟩
  · unfold cbuf_peek_to_fd
    rw [if_neg (by omega), if_neg (by omega), hfd]
  · unfold cbuf_read_to_fd
    rw [if_neg (by omega), if_neg (by omega), hfd]
  · unfold cbuf_replay_to_fd
    rw [if_neg (by omega), if_neg (by omega), hfd]
  · unfold cbuf_write_from_fd
    rw [if_neg (by omega), if_neg (by omega), hfdW]
  · unfold cbuf_peek_to_fd
    rw [if_pos hlen]
  · unfold cbuf_read_to_fd
    rw [if_pos hlen]
  · unfold cbuf_replay_to_fd
    rw [if_pos hlen]
  · unfold cbuf_write_from_fd
    rw [if_pos hlen]

theorem c9_len_neg_one_witness :
    cbuf_peek_to_fd (mkCb 4 8) (fun _ => Except.ok 0) (-1) =
      cbuf_peek_to_fd (mkCb 4 8) (fun _ => Except.ok 0) ((cbuf_used (mkCb 4 8) : Nat) : Int) ∧
    cbuf_read_to_fd (mkCb 4 8) (fun _ => Except.ok 0) (-1) =
      cbuf_read_to_fd (mkCb 4 8) (fun _ => Except.ok 0) ((cbuf_used (mkCb 4 8) : Nat) : Int) ∧
    cbuf_replay_to_fd (mkCb 4 8) (fun _ => Except.ok 0) (-1) =
      cbuf_replay_to_fd (mkCb 4 8) (fun _ => Except.ok 0)
        ((cbuf.replayLen (mkCb 4 8) : Nat) : Int) ∧
    cbuf_write_from_fd (mkCb 4 8) (fun _ => Except.ok []) (-1) =
      cbuf_write_from_fd (mkCb 4 8) (fun _ => Except.ok [])
        ((cbuf_free (mkCb 4 8) : Nat) : Int) ∧
    cbuf_peek_to_fd (mkCb 4 8) (fun _ => Except.ok 0) (-2) = (.error EINVAL, mkCb 4 8) ∧
    cbuf_read_to_fd (mkCb 4 8) (fun _ => Except.ok 0) (-2) = (.error EINVAL, mkCb 4 8) ∧
    cbuf_replay_to_fd (mkCb 4 8) (fun _ => Except.ok 0) (-2) = (.error EINVAL, mkCb 4 8) ∧
    cbuf_write_from_fd (mkCb 4 8) (fun _ => Except.ok []) (-2) = (.error EINVAL, mkCb 4 8) :=
  c9_len_neg_one (mkCb 4 8) (fun _ => Except.ok 0) (fun _ => Except.ok []) (-2) (by decide)
